import Mathlib

/-!
# SDFGen `main.cpp`: command-line driver of the signed-distance-field generator

A shallow embedding of `src/main.cpp`.

* `std::string` is a list of `char`s (`List Char`, one element per `char`).
* `float` is read as an exact rational (`ℚ`): the numerical statements below are
  statements of exact arithmetic.  An `unsigned int` has 32 bits: a converted
  `int` is taken modulo `2^32`, and a converted `float` has a defined result only
  when its truncation lies in `[0, 2^32)`.
* `replace_all` contains a `while` loop that need not terminate; it is embedded
  with a fuel argument counting loop tests, and `none` means the fuel ran out.
* `main` is embedded up to the call of `make_level_set3`: its result is the way
  the run leaves that part of the program (`Outcome`).
-/

namespace SDFGen

/-! ## Strings -/

/-- A `std::string`: the sequence of its `char`s. -/
abbrev CppString := List Char

/-- Scan of `std::string::find`: the first position `p`, counted from `base`, at
which `remove` is a prefix of what is left of the string. -/
def findAux (remove : CppString) : CppString → Nat → Option Nat
  | [], base => if remove = [] then some base else none
  | c :: t, base =>
    if remove <+: c :: t then some base else findAux remove t (base + 1)

/-- The call `str.find(remove, pos)`: the first position `p ≥ pos` at which
`remove` occurs in `str`, `none` for `std::string::npos`. -/
def find (str remove : CppString) (pos : Nat) : Option Nat :=
  if str.length < pos then none else findAux remove (str.drop pos) pos

/-- The call `str.replace(pos, n, insert)` for `pos ≤ str.size()`: the `n`
characters from `pos` on (fewer at the end of the string) give way to `insert`. -/
def replace (str : CppString) (pos n : Nat) (insert : CppString) : CppString :=
  str.take pos ++ insert ++ str.drop (pos + n)

/-- The `while` loop of `replace_all` (lines 19-23), started with the given `str`
and `pos`.  Each unit of fuel pays for one evaluation of the loop condition. -/
def replace_all_loop (remove insert : CppString) : Nat → CppString → Nat → Option CppString
  | 0, _, _ => none
  | fuel + 1, str, pos =>
    match find str remove pos with
    | none => some str
    | some p => replace_all_loop remove insert fuel (replace str p remove.length insert) (p + 1)

/-- The function `replace_all(str, remove, insert)` (lines 16-26). -/
def replace_all (fuel : Nat) (str remove insert : CppString) : Option CppString :=
  replace_all_loop remove insert fuel str 0

/-- Reference replacement, after the words of the specification, for a non-empty
`remove`: scan `str` from left to right; at an occurrence of `remove` emit `insert`
and skip the occurrence (`skip` counts the characters of it still to be passed),
otherwise keep the character. -/
def replaceRef (remove insert : CppString) : CppString → Nat → CppString
  | [], _ => []
  | _ :: t, skip + 1 => replaceRef remove insert t skip
  | c :: t, 0 =>
    if remove <+: c :: t then insert ++ replaceRef remove insert t (remove.length - 1)
    else c :: replaceRef remove insert t 0

/-- The test of line 44, negated: `main` goes on past the `Expected OBJ file`
error exit. -/
def acceptsFilename (filename : CppString) : Bool :=
  !(decide (filename.length < 5) || decide (filename.drop (filename.length - 4) ≠ ".obj".toList))

/-! ## The mesh as loaded by tinyobj -/

/-- The vector `Vec3f` of three `float`s. -/
abbrev Vec3f := Fin 3 → ℚ

/-- The vector `Vec3ui` of three `unsigned int`s. -/
abbrev Vec3ui := Nat × Nat × Nat

/-- The record `tinyobj::mesh_t`, as far as `main` reads it: `indices` holds the
`vertex_index` (an `int`, `-1` when missing) of each `index_t`. -/
structure mesh_t where
  indices : List Int
  num_face_vertices : List Nat

/-- What `tinyobj::LoadObj` leaves behind: its return value, `attrib.vertices`
and the meshes of `shapes`. -/
structure LoadResult where
  ret : Bool
  vertices : List ℚ
  shapes : List mesh_t

/-- Everything a run of `main` depends on up to the call of `make_level_set3`:
the argument count, `argv[1]`, the values left in `dx` and `padding` by the two
stream extractions (`0` when the text does not parse), whether `infile` opened,
and the loaded OBJ data. -/
structure Input where
  argc : Nat
  filename : CppString
  dx : ℚ
  padding : Int
  infile : Bool
  obj : LoadResult

/-- The arguments of the call `make_level_set3(faceList, vertList, min_box, dx,
sizes[0], sizes[1], sizes[2], phi_grid)` of line 128. -/
structure Call where
  faceList : List Vec3ui
  vertList : List Vec3f
  origin : Vec3f
  dx : ℚ
  ni : Nat
  nj : Nat
  nk : Nat

/-- How a run of `main` leaves lines 28-128. -/
inductive Outcome where
  /-- Exit by `exit(-1)` after the usage text (line 40). -/
  | usage
  /-- Exit by `exit(-1)` after `Error: Expected OBJ file ...` (line 46). -/
  | badFilename
  /-- Exit by `exit(-1)` after `Failed to open. Terminating.` (line 69). -/
  | openFailed
  /-- The conversion of line 122 from `float` to `unsigned int` has no defined
  result. -/
  | undefinedSizes
  /-- The call of `make_level_set3` is reached with these arguments. -/
  | levelSet (call : Call)

/-- The constant `std::numeric_limits<float>::max()`, that is `(2 - 2^-23) * 2^127`. -/
def FLT_MAX : ℚ := (2 ^ 24 - 1) * 2 ^ 104

/-- Conversion of an `int` to `unsigned int`: reduction modulo `2^32`. -/
def toUInt (i : Int) : Nat := (i % 4294967296).toNat

/-- Conversion of a `float` to a 32-bit `unsigned int`: the value is truncated
toward zero; there is no defined result when the truncated value is negative or
does not fit into 32 bits. -/
def truncToUInt (x : ℚ) : Option Nat :=
  if x ≤ -1 ∨ 4294967296 ≤ x then none else some ⌊x⌋₊

/-- Modelled from the spec: `update_minmax` of the vector header is not among the
sources; the specification calls `min_box`, `max_box` the mesh bounding box, so
each coordinate of `x` lowers the minimum or raises the maximum it exceeds. -/
def update_minmax (x : Vec3f) (box : Vec3f × Vec3f) : Vec3f × Vec3f :=
  (fun i => if x i < box.1 i then x i else box.1 i,
   fun i => if box.2 i < x i then x i else box.2 i)

/-- The vertex read in iteration `vi` of the loop of lines 90-98. -/
def point (vertices : List ℚ) (vi : Nat) : Vec3f :=
  fun i => vertices.getD (3 * vi + i.val) 0

/-- The vector `vertList` after the loop of lines 89-98. -/
def loadVertices (vertices : List ℚ) : List Vec3f :=
  (List.range (vertices.length / 3)).map (point vertices)

/-- The pair `(min_box, max_box)` after the loop of lines 89-98, started from the
inside-out box of lines 61-62. -/
def boundBox (vertList : List Vec3f) : Vec3f × Vec3f :=
  vertList.foldl (fun box x => update_minmax x box) (fun _ => FLT_MAX, fun _ => -FLT_MAX)

/-- The triangle pushed in iteration `v` of the loop of lines 104-109. -/
def faceTriangle (indices : List Int) (index_offset v : Nat) : Vec3ui :=
  (toUInt (indices.getD (index_offset + v) 0),
   toUInt (indices.getD (index_offset + v - 1) 0),
   toUInt (indices.getD (index_offset + v - 2) 0))

/-- The triangles pushed by the loop over the faces of one shape (lines 102-111),
for the faces still to come and the current `index_offset`. -/
def shapeFaces (indices : List Int) : List Nat → Nat → List Vec3ui
  | [], _ => []
  | fnum :: rest, index_offset =>
    (List.range (fnum - 2)).map (fun j => faceTriangle indices index_offset (j + 2))
      ++ shapeFaces indices rest (index_offset + fnum)

/-- The vector `faceList` after the loop of lines 99-112. -/
def loadFaces (shapes : List mesh_t) : List Vec3ui :=
  shapes.flatMap (fun s => shapeFaces s.indices s.num_face_vertices 0)

/-- The value of `padding` after line 59. -/
def clampPadding (padding : Int) : Int := if padding < 1 then 1 else padding

/-- The component `sizes[i]` of line 122, from the padded box; a division by a
zero `dx` gives an infinity or a NaN, which has no conversion. -/
def gridSize (min_box max_box : Vec3f) (dx : ℚ) (i : Fin 3) : Option Nat :=
  if dx = 0 then none else truncToUInt ((max_box i - min_box i) / dx)

/-- The vector `min_box` after line 120: `min_box -= padding*dx*unit`. -/
def paddedMin (box : Vec3f × Vec3f) (padding : Int) (dx : ℚ) : Vec3f :=
  fun i => box.1 i - padding * dx * 1

/-- The vector `max_box` after line 121: `max_box += padding*dx*unit`. -/
def paddedMax (box : Vec3f × Vec3f) (padding : Int) (dx : ℚ) : Vec3f :=
  fun i => box.2 i + padding * dx * 1

/-- The function `main` up to the call of `make_level_set3` (lines 28-128). -/
def main (inp : Input) : Outcome :=
  if inp.argc ≠ 5 then Outcome.usage
  else if acceptsFilename inp.filename = false then Outcome.badFilename
  else
    let padding := clampPadding inp.padding
    if inp.infile = false then Outcome.openFailed
    else
      let vertList := loadVertices inp.obj.vertices
      let box := boundBox vertList
      let faceList := loadFaces inp.obj.shapes
      let min_box := paddedMin box padding inp.dx
      let max_box := paddedMax box padding inp.dx
      match gridSize min_box max_box inp.dx 0, gridSize min_box max_box inp.dx 1,
          gridSize min_box max_box inp.dx 2 with
      | some ni, some nj, some nk =>
        Outcome.levelSet ⟨faceList, vertList, min_box, inp.dx, ni, nj, nk⟩
      | _, _, _ => Outcome.undefinedSizes

/-- The dimension `sizes[i]` handed over by a call. -/
def Call.size (c : Call) (i : Fin 3) : Nat := ![c.ni, c.nj, c.nk] i

/-- The run leaves `main` through one of its three error exits. -/
def Outcome.isFailure : Outcome → Bool
  | Outcome.usage => true
  | Outcome.badFilename => true
  | Outcome.openFailed => true
  | _ => false

/-- The cyclic rotations of a triple: the triangles with the winding of `(a, b, c)`. -/
def sameWinding (t : Vec3ui) (a b c : Nat) : Prop :=
  t = (a, b, c) ∨ t = (b, c, a) ∨ t = (c, a, b)

instance (t : Vec3ui) (a b c : Nat) : Decidable (sameWinding t a b c) := by
  unfold sameWinding; infer_instance

/-! ## Sample runs -/

/-- A mesh of the two vertices `(0, 0, 0)` and `(1, 1, 1)` and no face: an OBJ
file with the two lines `v 0 0 0` and `v 1 1 1`. -/
def twoVertices : LoadResult := ⟨true, [0, 0, 0, 1, 1, 1], []⟩

/-- A run on `twoVertices` with `dx = 1` and `padding = 1`. -/
def runNoTriangles : Input := ⟨5, "a.obj".toList, 1, 1, true, twoVertices⟩

/-- A run on `twoVertices` with `dx = -1` and `padding = 1`. -/
def runNegativeDx : Input := ⟨5, "a.obj".toList, -1, 1, true, twoVertices⟩

/-- A run on a mesh with the two vertices of `twoVertices` and one face whose
indices are `0`, `1` and the missing index `-1`. -/
def runBadIndex : Input :=
  ⟨5, "a.obj".toList, 1, 1, true, ⟨true, twoVertices.vertices, [⟨[0, 1, -1], [3]⟩]⟩⟩

/-- A run on `twoVertices` with `dx = 2` and `padding = 1`: the bounding box is
half a cell wide. -/
def runHalfCell : Input := ⟨5, "a.obj".toList, 2, 1, true, twoVertices⟩

/-- A run on `twoVertices` with `dx = 2^-33` and `padding = 1`: the bounding box is
`2^33` cells wide. -/
def runTinyDx : Input := ⟨5, "a.obj".toList, 1 / 8589934592, 1, true, twoVertices⟩

/-- The twelve triangles of the unit cube, wound outward. -/
def unitCubeMesh : mesh_t :=
  ⟨[0, 2, 1,  0, 3, 2,  4, 5, 6,  4, 6, 7,  0, 1, 5,  0, 5, 4,
    2, 3, 7,  2, 7, 6,  0, 4, 7,  0, 7, 3,  1, 2, 6,  1, 6, 5],
   [3, 3, 3, 3, 3, 3, 3, 3, 3, 3, 3, 3]⟩

/-- The unit cube of the end-to-end scenario: eight vertices at `±1/2`, twelve
triangles. -/
def unitCube : LoadResult :=
  ⟨true,
   [-1/2, -1/2, -1/2,  1/2, -1/2, -1/2,  1/2, 1/2, -1/2,  -1/2, 1/2, -1/2,
    -1/2, -1/2, 1/2,   1/2, -1/2, 1/2,   1/2, 1/2, 1/2,   -1/2, 1/2, 1/2],
   [unitCubeMesh]⟩

/-- The end-to-end scenario: the unit cube with `dx = 1/10` and `padding = 2`. -/
def runUnitCube : Input := ⟨5, "cube.obj".toList, 1/10, 2, true, unitCube⟩

/-! ## Facts about `find` and `replace` -/

theorem findAux_none {remove : CppString} :
    ∀ (s : CppString) (base : Nat), findAux remove s base = none →
      ∀ j, j < s.length → ¬ remove <+: s.drop j := by
  intro s
  induction s with
  | nil => intro base _ j hj; simp at hj
  | cons c t ih =>
    intro base h j hj
    unfold findAux at h
    split_ifs at h with hp
    cases j with
    | zero => simpa using hp
    | succ j =>
      simp only [List.drop_succ_cons]
      exact ih (base + 1) h j (by simpa using hj)

theorem findAux_some {remove : CppString} :
    ∀ (s : CppString) (base p : Nat), findAux remove s base = some p →
      ∃ k, p = base + k ∧ remove <+: s.drop k ∧ ∀ j, j < k → ¬ remove <+: s.drop j := by
  intro s
  induction s with
  | nil =>
    intro base p h
    unfold findAux at h
    split_ifs at h with hr
    exact ⟨0, by simpa using h.symm, by simp [hr], by simp⟩
  | cons c t ih =>
    intro base p h
    unfold findAux at h
    split_ifs at h with hp
    · exact ⟨0, by simpa using h.symm, by simpa using hp, by simp⟩
    · obtain ⟨k, hk, hpre, hno⟩ := ih (base + 1) p h
      refine ⟨k + 1, by omega, by simpa using hpre, ?_⟩
      intro j hj
      cases j with
      | zero => simpa using hp
      | succ j =>
        simp only [List.drop_succ_cons]
        exact hno j (by omega)

theorem find_none {str remove : CppString} {pos : Nat} (hpos : pos ≤ str.length)
    (h : find str remove pos = none) :
    ∀ q, pos ≤ q → q < str.length → ¬ remove <+: str.drop q := by
  intro q hq hlt
  unfold find at h
  rw [if_neg (by omega)] at h
  have := findAux_none _ _ h (q - pos) (by simp; omega)
  rwa [List.drop_drop, show pos + (q - pos) = q by omega] at this

theorem find_some {str remove : CppString} {pos p : Nat}
    (h : find str remove pos = some p) :
    pos ≤ p ∧ remove <+: str.drop p ∧
      ∀ q, pos ≤ q → q < p → ¬ remove <+: str.drop q := by
  unfold find at h
  split_ifs at h with hlen
  obtain ⟨k, hk, hpre, hno⟩ := findAux_some _ _ _ h
  subst hk
  refine ⟨by omega, by simpa [List.drop_drop] using hpre, ?_⟩
  intro q hq hlt
  have := hno (q - pos) (by omega)
  rwa [List.drop_drop, show pos + (q - pos) = q by omega] at this

/-- An occurrence of a non-empty `remove` at `p` lies inside the string. -/
theorem occurrence_le_length {str remove : CppString} {p : Nat}
    (h : remove <+: str.drop p) : remove.length ≤ str.length - p := by
  simpa using h.length_le

theorem length_replace {str insert : CppString} {p n : Nat} (h : p + n ≤ str.length) :
    (replace str p n insert).length = p + insert.length + (str.length - (p + n)) := by
  simp [replace]; omega

/-- After a replacement at `p`, an occurrence of `remove` that starts behind `p`
and ends inside the inserted text is an occurrence inside `insert`. -/
theorem occurrence_in_insert {str remove insert : CppString} {p q n : Nat}
    (hp : p ≤ str.length) (hq : p ≤ q) (hend : q + remove.length ≤ p + insert.length)
    (h : remove <+: (replace str p n insert).drop q) : remove <:+: insert := by
  have hlen : (str.take p).length = p := by simp [hp]
  have hdrop : (replace str p n insert).drop q
      = insert.drop (q - p) ++ str.drop (p + n) := by
    unfold replace
    rw [List.append_assoc, List.drop_append_eq_append_drop, hlen,
      List.drop_eq_nil_of_le (by omega), List.nil_append,
      List.drop_append_of_le_length (by omega)]
  rw [hdrop] at h
  have h2 : remove <+: insert.drop (q - p) :=
    List.prefix_of_prefix_length_le h (List.prefix_append _ _) (by simp; omega)
  obtain ⟨t, ht⟩ := h2
  exact ⟨insert.take (q - p), t, by rw [List.append_assoc, ht, List.take_append_drop]⟩

/-- Termination of the loop of `replace_all`: when every occurrence of `remove`
from `pos` on reaches into the last `t` characters of `str` and `insert` does not
contain `remove`, `t + 1` loop tests are enough. -/
theorem replace_all_loop_terminates {remove insert : CppString}
    (hins : ¬ remove <:+: insert) :
    ∀ (t : Nat) (str : CppString) (pos : Nat),
      (∀ q, pos ≤ q → remove <+: str.drop q → str.length < q + remove.length + t) →
      ∃ out, ∀ fuel, t + 1 ≤ fuel → replace_all_loop remove insert fuel str pos = some out := by
  intro t
  induction t with
  | zero =>
    intro str pos hinv
    refine ⟨str, ?_⟩
    intro fuel hfuel
    obtain ⟨f, rfl⟩ : ∃ f, fuel = f + 1 := ⟨fuel - 1, by omega⟩
    unfold replace_all_loop
    cases hfind : find str remove pos with
    | none => rfl
    | some p =>
      exfalso
      obtain ⟨hle, hocc, -⟩ := find_some hfind
      have h1 := hinv p hle hocc
      have h2 := occurrence_le_length hocc
      have h3 : p ≤ str.length := by
        by_contra hc
        have : str.drop p = [] := List.drop_eq_nil_of_le (by omega)
        rw [this] at hocc
        have := List.prefix_nil.mp hocc
        subst this
        exact hins ⟨[], insert, by simp⟩
      omega
  | succ t ih =>
    intro str pos hinv
    cases hfind : find str remove pos with
    | none =>
      refine ⟨str, ?_⟩
      intro fuel hfuel
      obtain ⟨f, rfl⟩ : ∃ f, fuel = f + 1 := ⟨fuel - 1, by omega⟩
      unfold replace_all_loop
      rw [hfind]
    | some p =>
      obtain ⟨hle, hocc, -⟩ := find_some hfind
      have h1 := hinv p hle hocc
      have h2 := occurrence_le_length hocc
      have hrem : remove ≠ [] := by
        rintro rfl
        exact hins ⟨[], insert, by simp⟩
      have hrlen : 0 < remove.length := List.length_pos.mpr hrem
      have h3 : p + remove.length ≤ str.length := by omega
      obtain ⟨out, hout⟩ := ih (replace str p remove.length insert) (p + 1) (by
        intro q hq hoccq
        rw [length_replace h3]
        by_contra hc
        exact hins (occurrence_in_insert (by omega) (by omega) (by omega) hoccq))
      refine ⟨out, ?_⟩
      intro fuel hfuel
      obtain ⟨f, rfl⟩ : ∃ f, fuel = f + 1 := ⟨fuel - 1, by omega⟩
      unfold replace_all_loop
      rw [hfind]
      exact hout f (by omega)

/-! ## Facts about the reference replacement -/

theorem replaceRef_skip (remove insert : CppString) :
    ∀ (l : CppString) (k : Nat),
      replaceRef remove insert l k = replaceRef remove insert (l.drop k) 0 := by
  intro l
  induction l with
  | nil => intro k; simp [replaceRef]
  | cons c t ih =>
    intro k
    cases k with
    | zero => rfl
    | succ k => simp only [replaceRef, List.drop_succ_cons]; exact ih k

theorem replaceRef_occurrence {remove insert : CppString} (hrem : remove ≠ [])
    (rest : CppString) :
    replaceRef remove insert (remove ++ rest) 0
      = insert ++ replaceRef remove insert rest 0 := by
  obtain ⟨c, r, rfl⟩ := List.exists_cons_of_ne_nil hrem
  have hp : (c :: r) <+: c :: (r ++ rest) := ⟨rest, by simp⟩
  simp only [List.cons_append, replaceRef, if_pos hp]
  rw [replaceRef_skip]
  simp

theorem replaceRef_no_occurrence {remove insert : CppString} :
    ∀ (a s : CppString), (∀ j, j < a.length → ¬ remove <+: (a ++ s).drop j) →
      replaceRef remove insert (a ++ s) 0 = a ++ replaceRef remove insert s 0 := by
  intro a
  induction a with
  | nil => intro s _; rfl
  | cons c t ih =>
    intro s h
    have h0 : ¬ remove <+: c :: (t ++ s) := by simpa using h 0 (by simp)
    rw [List.cons_append, replaceRef, if_neg h0, ih s, List.cons_append]
    intro j hj
    simpa using h (j + 1) (by simpa using hj)

theorem replaceRef_id {remove insert : CppString} (s : CppString)
    (h : ∀ j, j < s.length → ¬ remove <+: s.drop j) :
    replaceRef remove insert s 0 = s := by
  have := @replaceRef_no_occurrence remove insert s [] (by simpa using h)
  simpa [replaceRef] using this

/-- The loop of `replace_all` computes the reference replacement of the part `s`
of the string not yet scanned, when the scanned part `pre` holds no first
character of `remove` from `pos` on. -/
theorem replace_all_loop_eq_ref {remove insert : CppString} (hrem : remove ≠ [])
    (hins : insert ≠ []) (hfirst : ∀ c, remove.head? = some c → c ∉ insert) :
    ∀ (n : Nat) (s pre : CppString) (pos fuel : Nat), s.length ≤ n → pos ≤ pre.length →
      (∀ c, remove.head? = some c → c ∉ pre.drop pos) → n + 1 ≤ fuel →
      replace_all_loop remove insert fuel (pre ++ s) pos
        = some (pre ++ replaceRef remove insert s 0) := by
  obtain ⟨c0, r, rfl⟩ := List.exists_cons_of_ne_nil hrem
  have hc0 : c0 ∉ insert := hfirst c0 rfl
  intro n
  induction n with
  | zero =>
    intro s pre pos fuel hs hpos hpre hfuel
    obtain ⟨f, rfl⟩ : ∃ f, fuel = f + 1 := ⟨fuel - 1, by omega⟩
    obtain rfl : s = [] := List.length_eq_zero.mp (by omega)
    unfold replace_all_loop
    cases hfind : find (pre ++ []) (c0 :: r) pos with
    | none => simp [replaceRef]
    | some p =>
      exfalso
      obtain ⟨hle, hocc, -⟩ := find_some hfind
      simp only [List.append_nil] at hocc
      obtain ⟨t, ht⟩ := hocc
      have hmem : c0 ∈ pre.drop pos := by
        have h1 : c0 ∈ pre.drop p := by rw [← ht]; simp
        obtain ⟨k, rfl⟩ : ∃ k, p = pos + k := ⟨p - pos, by omega⟩
        rw [← List.drop_drop] at h1
        exact List.mem_of_mem_drop h1
      exact hpre c0 rfl hmem
  | succ n ih =>
    intro s pre pos fuel hs hpos hpre hfuel
    obtain ⟨f, rfl⟩ : ∃ f, fuel = f + 1 := ⟨fuel - 1, by omega⟩
    unfold replace_all_loop
    cases hfind : find (pre ++ s) (c0 :: r) pos with
    | none =>
      have hno := find_none (by simp; omega) hfind
      have : replaceRef (c0 :: r) insert s 0 = s := by
        apply replaceRef_id
        intro j hj
        have := hno (pre.length + j) (by omega) (by simp; omega)
        rwa [List.drop_append] at this
      simp [this]
    | some p =>
      obtain ⟨hle, hocc, hno⟩ := find_some hfind
      have hp : pre.length ≤ p := by
        by_contra hc
        obtain ⟨t, ht⟩ := hocc
        rw [List.drop_append_of_le_length (by omega)] at ht
        have hlt : p < pre.length := by omega
        have h1 : c0 ∈ pre.drop p := by
          rw [List.drop_eq_getElem_cons hlt] at ht
          simp only [List.cons_append, List.cons.injEq] at ht
          rw [List.drop_eq_getElem_cons hlt, ht.1]
          exact List.mem_cons_self _ _
        obtain ⟨k, rfl⟩ : ∃ k, p = pos + k := ⟨p - pos, by omega⟩
        rw [← List.drop_drop] at h1
        exact hpre c0 rfl (List.mem_of_mem_drop h1)
      obtain ⟨k, rfl⟩ : ∃ k, p = pre.length + k := ⟨p - pre.length, by omega⟩
      rw [List.drop_append] at hocc
      obtain ⟨rest, hrest⟩ := hocc
      have hk : k + (c0 :: r).length ≤ s.length := by
        have := congrArg List.length hrest
        simp only [List.length_append, List.length_drop] at this
        simp only [List.length_cons] at this ⊢
        omega
      have hs' : s = s.take k ++ ((c0 :: r) ++ rest) := by
        rw [hrest, List.take_append_drop]
      have htk : (s.take k).length = k := by
        simp only [List.length_cons] at hk
        simp; omega
      have hrestlen : rest.length ≤ n := by
        have := congrArg List.length hs'
        simp only [List.length_append, htk, List.length_cons] at this
        omega
      have href : replaceRef (c0 :: r) insert s 0
          = s.take k ++ (insert ++ replaceRef (c0 :: r) insert rest 0) := by
        conv_lhs => rw [hs']
        rw [replaceRef_no_occurrence, replaceRef_occurrence (by simp)]
        intro j hj
        rw [← hs']
        have := hno (pre.length + j) (by omega) (by omega)
        rwa [List.drop_append] at this
      have hrep : replace (pre ++ s) (pre.length + k) (c0 :: r).length insert
          = (pre ++ s.take k ++ insert) ++ rest := by
        unfold replace
        rw [List.take_append, Nat.add_assoc, List.drop_append]
        have : s.drop (k + (c0 :: r).length) = rest := by
          rw [← List.drop_drop, ← hrest]
          simp
        rw [this]
      dsimp only
      rw [hrep, ih rest (pre ++ s.take k ++ insert) (pre.length + k + 1) f hrestlen
        (by
          have := List.length_pos.mpr hins
          simp only [List.length_append, htk]; omega)
        (by
          intro c hc hmem
          obtain rfl : c0 = c := by simpa using hc
          have hd : (pre ++ s.take k ++ insert).drop (pre.length + k + 1) = insert.drop 1 := by
            rw [List.drop_append_eq_append_drop, List.drop_eq_nil_of_le (by simp [htk])]
            simp [htk]
          rw [hd] at hmem
          exact hc0 (List.mem_of_mem_drop hmem))
        (by omega), href]
      simp

/-! ## Facts about the bounding box -/

theorem foldl_update_minmax_fst (i : Fin 3) :
    ∀ (vl : List Vec3f) (box : Vec3f × Vec3f),
      (vl.foldl (fun box x => update_minmax x box) box).1 i ≤ box.1 i ∧
      (∀ v ∈ vl, (vl.foldl (fun box x => update_minmax x box) box).1 i ≤ v i) ∧
      ((vl.foldl (fun box x => update_minmax x box) box).1 i = box.1 i ∨
        ∃ v ∈ vl, (vl.foldl (fun box x => update_minmax x box) box).1 i = v i) := by
  intro vl
  induction vl with
  | nil => intro box; simp
  | cons x t ih =>
    intro box
    obtain ⟨h1, h2, h3⟩ := ih (update_minmax x box)
    have hx : (update_minmax x box).1 i = min (x i) (box.1 i) := by
      simp only [update_minmax, min_def]
      split_ifs <;> first | rfl | linarith
    simp only [List.foldl_cons, List.mem_cons, forall_eq_or_imp, exists_eq_or_imp]
    rw [hx] at h1 h3
    refine ⟨le_trans h1 (min_le_right _ _), ⟨le_trans h1 (min_le_left _ _), h2⟩, ?_⟩
    rcases h3 with h3 | h3
    · rcases min_choice (x i) (box.1 i) with hm | hm
      · right; left; rw [h3, hm]
      · left; rw [h3, hm]
    · right; right; exact h3

theorem foldl_update_minmax_snd (i : Fin 3) :
    ∀ (vl : List Vec3f) (box : Vec3f × Vec3f),
      box.2 i ≤ (vl.foldl (fun box x => update_minmax x box) box).2 i ∧
      (∀ v ∈ vl, v i ≤ (vl.foldl (fun box x => update_minmax x box) box).2 i) ∧
      ((vl.foldl (fun box x => update_minmax x box) box).2 i = box.2 i ∨
        ∃ v ∈ vl, (vl.foldl (fun box x => update_minmax x box) box).2 i = v i) := by
  intro vl
  induction vl with
  | nil => intro box; simp
  | cons x t ih =>
    intro box
    obtain ⟨h1, h2, h3⟩ := ih (update_minmax x box)
    have hx : (update_minmax x box).2 i = max (x i) (box.2 i) := by
      simp only [update_minmax, max_def]
      split_ifs <;> first | rfl | linarith
    simp only [List.foldl_cons, List.mem_cons, forall_eq_or_imp, exists_eq_or_imp]
    rw [hx] at h1 h3
    refine ⟨le_trans (le_max_right _ _) h1, ⟨le_trans (le_max_left _ _) h1, h2⟩, ?_⟩
    rcases h3 with h3 | h3
    · rcases max_choice (x i) (box.2 i) with hm | hm
      · right; left; rw [h3, hm]
      · left; rw [h3, hm]
    · right; right; exact h3

/-- Every coordinate of a loaded vertex is an entry of `attrib.vertices`. -/
theorem loadVertices_coord_mem {vertices : List ℚ} {v : Vec3f}
    (hv : v ∈ loadVertices vertices) (i : Fin 3) : v i ∈ vertices := by
  simp only [loadVertices, List.mem_map, List.mem_range] at hv
  obtain ⟨vi, hvi, rfl⟩ := hv
  have hi := i.isLt
  have hlt : 3 * vi + i.val < vertices.length := by omega
  simp only [point, List.getD_eq_getElem _ _ hlt]
  exact List.getElem_mem _

theorem loadVertices_ne_nil {vertices : List ℚ} (h : 3 ≤ vertices.length) :
    loadVertices vertices ≠ [] := by
  intro hnil
  have := congrArg List.length hnil
  simp [loadVertices] at this
  omega

/-- The pair `(min_box, max_box)` of a mesh with at least one vertex, all of whose
coordinates are finite `float`s, is its bounding box: on each axis the least and
the greatest coordinate of a vertex. -/
theorem boundBox_spec {vertices : List ℚ} (hne : 3 ≤ vertices.length)
    (hfin : ∀ c ∈ vertices, |c| ≤ FLT_MAX) (i : Fin 3) :
    (∀ v ∈ loadVertices vertices, (boundBox (loadVertices vertices)).1 i ≤ v i) ∧
    (∃ v ∈ loadVertices vertices, (boundBox (loadVertices vertices)).1 i = v i) ∧
    (∀ v ∈ loadVertices vertices, v i ≤ (boundBox (loadVertices vertices)).2 i) ∧
    (∃ v ∈ loadVertices vertices, (boundBox (loadVertices vertices)).2 i = v i) := by
  obtain ⟨w, hw⟩ := List.exists_mem_of_ne_nil _ (loadVertices_ne_nil hne)
  have hwfin := abs_le.mp (hfin _ (loadVertices_coord_mem hw i))
  obtain ⟨-, a2, a3⟩ := foldl_update_minmax_fst i (loadVertices vertices)
    (fun _ => FLT_MAX, fun _ => -FLT_MAX)
  obtain ⟨-, b2, b3⟩ := foldl_update_minmax_snd i (loadVertices vertices)
    (fun _ => FLT_MAX, fun _ => -FLT_MAX)
  refine ⟨a2, ?_, b2, ?_⟩
  · rcases a3 with h | h
    · refine ⟨w, hw, le_antisymm (a2 w hw) ?_⟩
      unfold boundBox
      rw [h]
      exact hwfin.2
    · exact h
  · rcases b3 with h | h
    · refine ⟨w, hw, le_antisymm ?_ (b2 w hw)⟩
      unfold boundBox
      rw [h]
      exact hwfin.1
    · exact h

theorem boundBox_min_le_max {vertices : List ℚ} (hne : 3 ≤ vertices.length)
    (hfin : ∀ c ∈ vertices, |c| ≤ FLT_MAX) (i : Fin 3) :
    (boundBox (loadVertices vertices)).1 i ≤ (boundBox (loadVertices vertices)).2 i := by
  obtain ⟨h1, -, h3, -⟩ := boundBox_spec hne hfin i
  obtain ⟨w, hw⟩ := List.exists_mem_of_ne_nil _ (loadVertices_ne_nil hne)
  exact le_trans (h1 w hw) (h3 w hw)

/-! ## Facts about the grid dimensions and the run of `main` -/

theorem clampPadding_eq_max (padding : Int) : clampPadding padding = max padding 1 := by
  unfold clampPadding
  split_ifs with h
  · exact (max_eq_right (by omega)).symm
  · exact (max_eq_left (by omega)).symm

theorem one_le_clampPadding (padding : Int) : 1 ≤ clampPadding padding := by
  rw [clampPadding_eq_max]; exact le_max_right _ _

/-- The quotient converted in line 122 is the extent of the bounding box in cells
plus twice the padding. -/
theorem padded_quotient (box : Vec3f × Vec3f) (padding : Int) {dx : ℚ} (hdx : dx ≠ 0)
    (i : Fin 3) :
    (paddedMax box padding dx i - paddedMin box padding dx i) / dx
      = (box.2 i - box.1 i) / dx + 2 * padding := by
  simp only [paddedMax, paddedMin]
  field_simp
  ring

theorem gridSize_eq_some_iff (min_box max_box : Vec3f) (dx : ℚ) (i : Fin 3) (n : Nat) :
    gridSize min_box max_box dx i = some n ↔
      dx ≠ 0 ∧ -1 < (max_box i - min_box i) / dx ∧
        (max_box i - min_box i) / dx < 4294967296 ∧
        n = ⌊(max_box i - min_box i) / dx⌋₊ := by
  unfold gridSize truncToUInt
  by_cases hdx : dx = 0
  · simp [hdx]
  · by_cases hq : (max_box i - min_box i) / dx ≤ -1 ∨ 4294967296 ≤ (max_box i - min_box i) / dx
    · rw [if_neg hdx, if_pos hq]
      constructor
      · intro h; cases h
      · rintro ⟨-, h1, h2, -⟩
        rcases hq with hq | hq <;> linarith
    · rw [if_neg hdx, if_neg hq]
      rw [not_or, not_le, not_le] at hq
      simp only [Option.some.injEq, ne_eq, hdx, not_false_eq_true, hq.1, hq.2, true_and]
      exact eq_comm

theorem gridSize_eq_none_of_large (min_box max_box : Vec3f) (dx : ℚ) (i : Fin 3)
    (h : 4294967296 ≤ (max_box i - min_box i) / dx) :
    gridSize min_box max_box dx i = none := by
  unfold gridSize truncToUInt
  split_ifs <;> first | rfl | (exfalso; tauto)

/-- For a positive cell size, a box that is not inside out and a quotient that
fits into 32 bits, each dimension is the number of whole cells in the extent of
the box plus twice the padding. -/
theorem gridSize_of_pos (box : Vec3f × Vec3f) {padding : Int} {dx : ℚ} (hdx : 0 < dx)
    (hp : 0 ≤ padding) (i : Fin 3) (hbox : box.1 i ≤ box.2 i)
    (hr : (box.2 i - box.1 i + 2 * padding * dx) / dx < 4294967296) :
    gridSize (paddedMin box padding dx) (paddedMax box padding dx) dx i
      = some (⌊(box.2 i - box.1 i) / dx⌋₊ + (2 * padding).toNat) := by
  have hq := padded_quotient box padding hdx.ne' i
  have hnn : 0 ≤ (box.2 i - box.1 i) / dx := div_nonneg (by linarith) hdx.le
  have hcast : ((2 * padding).toNat : ℚ) = 2 * padding := by
    have : ((2 * padding).toNat : Int) = 2 * padding := Int.toNat_of_nonneg (by omega)
    exact_mod_cast this
  have hpq : (0 : ℚ) ≤ padding := by exact_mod_cast hp
  have hr' : (box.2 i - box.1 i) / dx + 2 * padding < 4294967296 := by
    have : (box.2 i - box.1 i + 2 * padding * dx) / dx
        = (box.2 i - box.1 i) / dx + 2 * padding := by
      field_simp
    rwa [this] at hr
  rw [gridSize_eq_some_iff]
  refine ⟨hdx.ne', ?_, ?_, ?_⟩
  · rw [hq]; linarith
  · rw [hq]; exact hr'
  · rw [hq, ← hcast, Nat.floor_add_nat hnn]

/-- Past the three error exits, `main` calls `make_level_set3` as soon as the three
conversions of line 122 have a result. -/
theorem main_eq_levelSet (inp : Input) (hargc : inp.argc = 5)
    (hname : acceptsFilename inp.filename = true) (hfile : inp.infile = true)
    {ni nj nk : Nat}
    (h0 : gridSize (paddedMin (boundBox (loadVertices inp.obj.vertices))
        (clampPadding inp.padding) inp.dx)
      (paddedMax (boundBox (loadVertices inp.obj.vertices))
        (clampPadding inp.padding) inp.dx) inp.dx 0 = some ni)
    (h1 : gridSize (paddedMin (boundBox (loadVertices inp.obj.vertices))
        (clampPadding inp.padding) inp.dx)
      (paddedMax (boundBox (loadVertices inp.obj.vertices))
        (clampPadding inp.padding) inp.dx) inp.dx 1 = some nj)
    (h2 : gridSize (paddedMin (boundBox (loadVertices inp.obj.vertices))
        (clampPadding inp.padding) inp.dx)
      (paddedMax (boundBox (loadVertices inp.obj.vertices))
        (clampPadding inp.padding) inp.dx) inp.dx 2 = some nk) :
    main inp = Outcome.levelSet
      ⟨loadFaces inp.obj.shapes, loadVertices inp.obj.vertices,
        paddedMin (boundBox (loadVertices inp.obj.vertices)) (clampPadding inp.padding) inp.dx,
        inp.dx, ni, nj, nk⟩ := by
  simp only [main, hargc, hname, hfile, h0, h1, h2]
  simp

/-- Past the three error exits, `main` either calls `make_level_set3` with the
parsed `dx` or fails to convert a dimension. -/
theorem main_cases (inp : Input) (hargc : inp.argc = 5)
    (hname : acceptsFilename inp.filename = true) (hfile : inp.infile = true) :
    main inp = Outcome.undefinedSizes ∨
      ∃ ni nj nk, main inp = Outcome.levelSet
        ⟨loadFaces inp.obj.shapes, loadVertices inp.obj.vertices,
          paddedMin (boundBox (loadVertices inp.obj.vertices)) (clampPadding inp.padding)
            inp.dx, inp.dx, ni, nj, nk⟩ ∧
        (∀ i : Fin 3, gridSize (paddedMin (boundBox (loadVertices inp.obj.vertices))
            (clampPadding inp.padding) inp.dx)
          (paddedMax (boundBox (loadVertices inp.obj.vertices))
            (clampPadding inp.padding) inp.dx) inp.dx i = some (![ni, nj, nk] i)) := by
  cases h0 : gridSize (paddedMin (boundBox (loadVertices inp.obj.vertices))
        (clampPadding inp.padding) inp.dx)
      (paddedMax (boundBox (loadVertices inp.obj.vertices))
        (clampPadding inp.padding) inp.dx) inp.dx 0 with
  | none => left; simp [main, hargc, hname, hfile, h0]
  | some ni =>
    cases h1 : gridSize (paddedMin (boundBox (loadVertices inp.obj.vertices))
          (clampPadding inp.padding) inp.dx)
        (paddedMax (boundBox (loadVertices inp.obj.vertices))
          (clampPadding inp.padding) inp.dx) inp.dx 1 with
    | none => left; simp [main, hargc, hname, hfile, h0, h1]
    | some nj =>
      cases h2 : gridSize (paddedMin (boundBox (loadVertices inp.obj.vertices))
            (clampPadding inp.padding) inp.dx)
          (paddedMax (boundBox (loadVertices inp.obj.vertices))
            (clampPadding inp.padding) inp.dx) inp.dx 2 with
      | none => left; simp [main, hargc, hname, hfile, h0, h1, h2]
      | some nk =>
        right
        refine ⟨ni, nj, nk, main_eq_levelSet inp hargc hname hfile h0 h1 h2, ?_⟩
        intro i
        fin_cases i
        · simpa using h0
        · simpa using h1
        · simpa using h2

/-- A run that calls `make_level_set3` got past the three error exits, and the
call carries the loaded lists, the padded `min_box`, the parsed `dx` and the three
converted dimensions. -/
theorem main_levelSet_inv (inp : Input) (call : Call)
    (h : main inp = Outcome.levelSet call) :
    inp.argc = 5 ∧ acceptsFilename inp.filename = true ∧ inp.infile = true ∧
      call.faceList = loadFaces inp.obj.shapes ∧
      call.vertList = loadVertices inp.obj.vertices ∧
      call.origin = paddedMin (boundBox (loadVertices inp.obj.vertices))
        (clampPadding inp.padding) inp.dx ∧
      call.dx = inp.dx ∧
      ∀ i : Fin 3, gridSize (paddedMin (boundBox (loadVertices inp.obj.vertices))
          (clampPadding inp.padding) inp.dx)
        (paddedMax (boundBox (loadVertices inp.obj.vertices))
          (clampPadding inp.padding) inp.dx) inp.dx i = some (call.size i) := by
  by_cases hargc : inp.argc = 5
  swap
  · simp [main, hargc] at h
  cases hname : acceptsFilename inp.filename with
  | false => simp [main, hargc, hname] at h
  | true =>
    cases hfile : inp.infile with
    | false => simp [main, hargc, hname, hfile] at h
    | true =>
      rcases main_cases inp hargc hname hfile with h' | ⟨ni, nj, nk, h', hs⟩
      · rw [h'] at h; cases h
      · rw [h'] at h
        cases h
        exact ⟨hargc, rfl, rfl, rfl, rfl, rfl, rfl, hs⟩

/-- A mesh with a vertex, finite coordinates, a positive cell size and quotients
that fit into 32 bits reaches `make_level_set3`, with the dimensions of
`gridSize_of_pos`. -/
theorem main_of_mesh (inp : Input) (hargc : inp.argc = 5)
    (hname : acceptsFilename inp.filename = true) (hfile : inp.infile = true)
    (hne : 3 ≤ inp.obj.vertices.length) (hfin : ∀ c ∈ inp.obj.vertices, |c| ≤ FLT_MAX)
    (hdx : 0 < inp.dx)
    (hr : ∀ i, ((boundBox (loadVertices inp.obj.vertices)).2 i
        - (boundBox (loadVertices inp.obj.vertices)).1 i
        + 2 * clampPadding inp.padding * inp.dx) / inp.dx < 4294967296) :
    ∃ call, main inp = Outcome.levelSet call ∧
      call.faceList = loadFaces inp.obj.shapes ∧
      call.vertList = loadVertices inp.obj.vertices ∧
      call.origin = paddedMin (boundBox (loadVertices inp.obj.vertices))
        (clampPadding inp.padding) inp.dx ∧
      call.dx = inp.dx ∧
      ∀ i, call.size i =
        ⌊((boundBox (loadVertices inp.obj.vertices)).2 i
            - (boundBox (loadVertices inp.obj.vertices)).1 i) / inp.dx⌋₊
          + (2 * clampPadding inp.padding).toNat := by
  have hp : 0 ≤ clampPadding inp.padding := le_trans (by omega) (one_le_clampPadding _)
  have hg := fun i => gridSize_of_pos (boundBox (loadVertices inp.obj.vertices)) hdx hp i
    (boundBox_min_le_max hne hfin i) (hr i)
  refine ⟨_, main_eq_levelSet inp hargc hname hfile (hg 0) (hg 1) (hg 2),
    rfl, rfl, rfl, rfl, ?_⟩
  intro i
  fin_cases i <;> simp [Call.size]

/-- With `dx > 0` the number of cells of a dimension lies within one cell of the
padded extent of the bounding box. -/
theorem size_bounds (box : Vec3f × Vec3f) {padding : Int} {dx : ℚ} (hdx : 0 < dx)
    (hp : 0 ≤ padding) (i : Fin 3) (hbox : box.1 i ≤ box.2 i) {n : Nat}
    (hn : n = ⌊(box.2 i - box.1 i) / dx⌋₊ + (2 * padding).toNat) :
    (n : ℚ) * dx ≤ (box.2 i - box.1 i) + 2 * padding * dx ∧
      (box.2 i - box.1 i) + 2 * padding * dx < ((n : ℚ) + 1) * dx := by
  have hnn : 0 ≤ (box.2 i - box.1 i) / dx := div_nonneg (by linarith) hdx.le
  have hcast : ((2 * padding).toNat : ℚ) = 2 * padding := by
    have : ((2 * padding).toNat : Int) = 2 * padding := Int.toNat_of_nonneg (by omega)
    exact_mod_cast this
  have h1 := Nat.floor_le hnn
  have h2 := Nat.lt_floor_add_one ((box.2 i - box.1 i) / dx)
  have he : box.2 i - box.1 i = (box.2 i - box.1 i) / dx * dx := by
    field_simp
  subst hn
  push_cast
  rw [hcast]
  constructor
  · nlinarith
  · nlinarith

/-- All faces of a triangulated shape: face `f` yields the one triangle built from
the entries `3 f + 2`, `3 f + 1`, `3 f` of `indices`, in this order. -/
theorem shapeFaces_triangulated (indices : List Int) :
    ∀ (nfv : List Nat) (index_offset : Nat), (∀ x ∈ nfv, x = 3) →
      shapeFaces indices nfv index_offset
        = (List.range nfv.length).map
            (fun f => faceTriangle indices (index_offset + 3 * f) 2) := by
  intro nfv
  induction nfv with
  | nil => intro off _; simp [shapeFaces]
  | cons x t ih =>
    intro off h
    obtain rfl : x = 3 := h x (by simp)
    have h1 : (List.range (3 - 2)).map (fun j => faceTriangle indices off (j + 2))
        = [faceTriangle indices off 2] := rfl
    rw [shapeFaces, ih (off + 3) (fun y hy => h y (by simp [hy])), h1]
    simp only [List.length_cons, List.range_succ_eq_map, List.map_cons, List.map_map,
      Nat.mul_zero, Nat.add_zero, List.singleton_append, List.cons.injEq, true_and]
    apply List.map_congr_left
    intro f _
    simp only [Function.comp_apply]
    congr 1
    omega

theorem mem_loadFaces_of_triangulated {shapes : List mesh_t} {m : mesh_t} (hm : m ∈ shapes)
    (htri : ∀ x ∈ m.num_face_vertices, x = 3) {f : Nat}
    (hf : f < m.num_face_vertices.length) :
    faceTriangle m.indices (3 * f) 2 ∈ loadFaces shapes := by
  simp only [loadFaces, List.mem_flatMap]
  refine ⟨m, hm, ?_⟩
  rw [shapeFaces_triangulated _ _ _ htri]
  simp only [List.mem_map, List.mem_range]
  exact ⟨f, hf, by simp⟩

/-! ## The sample runs evaluated -/

theorem boundBox_twoVertices (i : Fin 3) :
    (boundBox (loadVertices twoVertices.vertices)).1 i = 0 ∧
    (boundBox (loadVertices twoVertices.vertices)).2 i = 1 := by
  have h : loadVertices twoVertices.vertices
      = [point [0, 0, 0, 1, 1, 1] 0, point [0, 0, 0, 1, 1, 1] 1] := rfl
  rw [h]
  fin_cases i <;> norm_num [boundBox, update_minmax, point, FLT_MAX]

theorem bounds_unitCube : ∀ c ∈ unitCube.vertices, -1/2 ≤ c ∧ c ≤ 1/2 := by
  intro c hc
  simp only [unitCube, List.mem_cons, List.mem_singleton, List.not_mem_nil, or_false] at hc
  rcases hc with h | h | h | h | h | h | h | h | h | h | h | h | h | h | h | h | h | h
    | h | h | h | h | h | h <;> (subst h; norm_num)

theorem finite_of_small {vertices : List ℚ} (h : ∀ c ∈ vertices, |c| ≤ 1) :
    ∀ c ∈ vertices, |c| ≤ FLT_MAX := by
  intro c hc
  refine le_trans (h c hc) ?_
  norm_num [FLT_MAX]

theorem finite_twoVertices : ∀ c ∈ twoVertices.vertices, |c| ≤ FLT_MAX :=
  finite_of_small (by simp [twoVertices])

theorem finite_unitCube : ∀ c ∈ unitCube.vertices, |c| ≤ FLT_MAX :=
  finite_of_small (by
    intro c hc
    obtain ⟨h1, h2⟩ := bounds_unitCube c hc
    exact abs_le.mpr ⟨by linarith, by linarith⟩)

theorem boundBox_unitCube (i : Fin 3) :
    (boundBox (loadVertices unitCube.vertices)).1 i = -1/2 ∧
    (boundBox (loadVertices unitCube.vertices)).2 i = 1/2 := by
  have h : loadVertices unitCube.vertices
      = (List.range 8).map (point unitCube.vertices) := rfl
  have hlo : point unitCube.vertices 0 ∈ loadVertices unitCube.vertices := by
    rw [h]; exact List.mem_map_of_mem _ (by simp)
  have hhi : point unitCube.vertices 6 ∈ loadVertices unitCube.vertices := by
    rw [h]; exact List.mem_map_of_mem _ (by simp)
  have hlo' : point unitCube.vertices 0 i = -1/2 := by
    fin_cases i <;> simp [point, unitCube]
  have hhi' : point unitCube.vertices 6 i = 1/2 := by
    fin_cases i <;> simp [point, unitCube]
  obtain ⟨h1, ⟨v, hv, hv'⟩, h3, ⟨w, hw, hw'⟩⟩ :=
    @boundBox_spec unitCube.vertices (by simp [unitCube]) finite_unitCube i
  constructor
  · refine le_antisymm ?_ ?_
    · rw [← hlo']; exact h1 _ hlo
    · rw [hv']; exact (bounds_unitCube _ (loadVertices_coord_mem hv i)).1
  · refine le_antisymm ?_ ?_
    · rw [hw']; exact (bounds_unitCube _ (loadVertices_coord_mem hw i)).2
    · rw [← hhi']; exact h3 _ hhi

theorem acceptsFilename_iff (filename : CppString) :
    acceptsFilename filename = true ↔
      5 ≤ filename.length ∧ ∃ name, filename = name ++ ['.', 'o', 'b', 'j'] := by
  have hobj : ".obj".toList = ['.', 'o', 'b', 'j'] := rfl
  simp only [acceptsFilename, hobj, Bool.not_eq_true', Bool.or_eq_false_iff,
    decide_eq_false_iff_not, not_lt, ne_eq, not_not]
  constructor
  · rintro ⟨h5, hd⟩
    exact ⟨h5, filename.take (filename.length - 4), by rw [← hd, List.take_append_drop]⟩
  · rintro ⟨h5, name, rfl⟩
    refine ⟨h5, ?_⟩
    simp

theorem main_isFailure_of_valid (inp : Input) (hargc : inp.argc = 5)
    (hname : acceptsFilename inp.filename = true) (hfile : inp.infile = true) :
    (main inp).isFailure = false := by
  rcases main_cases inp hargc hname hfile with h | ⟨ni, nj, nk, h, -⟩ <;> rw [h] <;> rfl

/-- The grid of a run that reaches `make_level_set3` with `dx > 0`: origin, cell
size and the position of the dimensions relative to the padded bounding box. -/
theorem main_grid (inp : Input) (hargc : inp.argc = 5)
    (hname : acceptsFilename inp.filename = true) (hfile : inp.infile = true)
    (hne : 3 ≤ inp.obj.vertices.length) (hfin : ∀ c ∈ inp.obj.vertices, |c| ≤ FLT_MAX)
    (hdx : 0 < inp.dx)
    (hr : ∀ i, ((boundBox (loadVertices inp.obj.vertices)).2 i
        - (boundBox (loadVertices inp.obj.vertices)).1 i
        + 2 * clampPadding inp.padding * inp.dx) / inp.dx < 4294967296) :
    ∃ call, main inp = Outcome.levelSet call ∧ call.dx = inp.dx ∧
      ∀ i,
        call.origin i = (boundBox (loadVertices inp.obj.vertices)).1 i
          - clampPadding inp.padding * inp.dx ∧
        call.size i = ⌊((boundBox (loadVertices inp.obj.vertices)).2 i
            - (boundBox (loadVertices inp.obj.vertices)).1 i) / inp.dx⌋₊
          + (2 * clampPadding inp.padding).toNat ∧
        (call.size i : ℚ) * inp.dx ≤
          (boundBox (loadVertices inp.obj.vertices)).2 i
            - (boundBox (loadVertices inp.obj.vertices)).1 i
            + 2 * clampPadding inp.padding * inp.dx ∧
        (boundBox (loadVertices inp.obj.vertices)).2 i
            - (boundBox (loadVertices inp.obj.vertices)).1 i
            + 2 * clampPadding inp.padding * inp.dx < ((call.size i : ℚ) + 1) * inp.dx := by
  obtain ⟨call, h, -, -, ho, hd, hs⟩ := main_of_mesh inp hargc hname hfile hne hfin hdx hr
  have hp : 0 ≤ clampPadding inp.padding := le_trans (by omega) (one_le_clampPadding _)
  refine ⟨call, h, hd, fun i => ?_⟩
  have hb := size_bounds (boundBox (loadVertices inp.obj.vertices)) hdx hp i
    (boundBox_min_le_max hne hfin i) (hs i)
  refine ⟨?_, hs i, hb.1, hb.2⟩
  rw [ho]
  simp [paddedMin]

/-- The quotient of line 122 on the mesh `twoVertices`, before the padding is
clamped. -/
theorem quotient_twoVertices (padding : Int) (dx : ℚ) (i : Fin 3) :
    ((boundBox (loadVertices twoVertices.vertices)).2 i
        - (boundBox (loadVertices twoVertices.vertices)).1 i + 2 * padding * dx) / dx
      = (1 + 2 * padding * dx) / dx := by
  rw [(boundBox_twoVertices i).1, (boundBox_twoVertices i).2, sub_zero]

/-- The quotient of line 122 in the end-to-end scenario. -/
theorem quotient_unitCube (padding : Int) (dx : ℚ) (i : Fin 3) :
    ((boundBox (loadVertices unitCube.vertices)).2 i
        - (boundBox (loadVertices unitCube.vertices)).1 i + 2 * padding * dx) / dx
      = (1 + 2 * padding * dx) / dx := by
  rw [(boundBox_unitCube i).1, (boundBox_unitCube i).2]
  norm_num

theorem range_runNoTriangles (i : Fin 3) :
    ((boundBox (loadVertices runNoTriangles.obj.vertices)).2 i
        - (boundBox (loadVertices runNoTriangles.obj.vertices)).1 i
        + 2 * clampPadding runNoTriangles.padding * runNoTriangles.dx) / runNoTriangles.dx
      < 4294967296 := by
  have h := quotient_twoVertices (clampPadding runNoTriangles.padding) runNoTriangles.dx i
  have hc : clampPadding runNoTriangles.padding = 1 := by decide
  have hd : runNoTriangles.dx = 1 := rfl
  rw [show runNoTriangles.obj.vertices = twoVertices.vertices from rfl, h, hc, hd]
  norm_num

theorem range_runBadIndex (i : Fin 3) :
    ((boundBox (loadVertices runBadIndex.obj.vertices)).2 i
        - (boundBox (loadVertices runBadIndex.obj.vertices)).1 i
        + 2 * clampPadding runBadIndex.padding * runBadIndex.dx) / runBadIndex.dx
      < 4294967296 :=
  range_runNoTriangles i

theorem range_runHalfCell (i : Fin 3) :
    ((boundBox (loadVertices runHalfCell.obj.vertices)).2 i
        - (boundBox (loadVertices runHalfCell.obj.vertices)).1 i
        + 2 * clampPadding runHalfCell.padding * runHalfCell.dx) / runHalfCell.dx
      < 4294967296 := by
  have h := quotient_twoVertices (clampPadding runHalfCell.padding) runHalfCell.dx i
  have hc : clampPadding runHalfCell.padding = 1 := by decide
  have hd : runHalfCell.dx = 2 := rfl
  rw [show runHalfCell.obj.vertices = twoVertices.vertices from rfl, h, hc, hd]
  norm_num

theorem range_runUnitCube (i : Fin 3) :
    ((boundBox (loadVertices runUnitCube.obj.vertices)).2 i
        - (boundBox (loadVertices runUnitCube.obj.vertices)).1 i
        + 2 * clampPadding runUnitCube.padding * runUnitCube.dx) / runUnitCube.dx
      < 4294967296 := by
  have h := quotient_unitCube (clampPadding runUnitCube.padding) runUnitCube.dx i
  have hc : clampPadding runUnitCube.padding = 2 := by decide
  have hd : runUnitCube.dx = 1 / 10 := rfl
  rw [show runUnitCube.obj.vertices = unitCube.vertices from rfl, h, hc, hd]
  norm_num

/-- The quotient of line 122 on the run with `dx = -1`. -/
theorem quotient_runNegativeDx (i : Fin 3) :
    (paddedMax (boundBox (loadVertices runNegativeDx.obj.vertices))
          (clampPadding runNegativeDx.padding) runNegativeDx.dx i
        - paddedMin (boundBox (loadVertices runNegativeDx.obj.vertices))
          (clampPadding runNegativeDx.padding) runNegativeDx.dx i) / runNegativeDx.dx
      = 1 := by
  have hq := @padded_quotient (boundBox (loadVertices runNegativeDx.obj.vertices))
    (clampPadding runNegativeDx.padding) runNegativeDx.dx
    (by norm_num [runNegativeDx]) i
  have hb := boundBox_twoVertices i
  have hb1 : (boundBox (loadVertices runNegativeDx.obj.vertices)).1 i = 0 := hb.1
  have hb2 : (boundBox (loadVertices runNegativeDx.obj.vertices)).2 i = 1 := hb.2
  rw [hq, hb1, hb2]
  norm_num [runNegativeDx, clampPadding]

/-- The quotient of line 122 on the run with `dx = 2^-33`. -/
theorem quotient_runTinyDx (i : Fin 3) :
    (paddedMax (boundBox (loadVertices runTinyDx.obj.vertices))
          (clampPadding runTinyDx.padding) runTinyDx.dx i
        - paddedMin (boundBox (loadVertices runTinyDx.obj.vertices))
          (clampPadding runTinyDx.padding) runTinyDx.dx i) / runTinyDx.dx
      = 8589934594 := by
  have hq := @padded_quotient (boundBox (loadVertices runTinyDx.obj.vertices))
    (clampPadding runTinyDx.padding) runTinyDx.dx
    (by norm_num [runTinyDx]) i
  have hb := boundBox_twoVertices i
  have hb1 : (boundBox (loadVertices runTinyDx.obj.vertices)).1 i = 0 := hb.1
  have hb2 : (boundBox (loadVertices runTinyDx.obj.vertices)).2 i = 1 := hb.2
  rw [hq, hb1, hb2]
  norm_num [runTinyDx, clampPadding]

/-- C1, refuted as stated: on a mesh of two vertices and no triangle, with a valid
command line, `main` reports no failure and calls `make_level_set3` with an empty
face list. -/
theorem noTriangles_reaches_make_level_set3 :
    loadFaces runNoTriangles.obj.shapes = [] ∧ (main runNoTriangles).isFailure = false ∧
      ∃ call, main runNoTriangles = Outcome.levelSet call ∧ call.faceList = [] := by
  obtain ⟨call, h, hf, -⟩ := main_of_mesh runNoTriangles rfl (by decide) rfl
    (by simp [runNoTriangles, twoVertices]) finite_twoVertices
    (by norm_num [runNoTriangles]) range_runNoTriangles
  exact ⟨rfl, main_isFailure_of_valid _ rfl (by decide) rfl, call, h, hf⟩

/-- C1, amended: with five arguments, an accepted file name and a file that opens,
`main` reports no failure whatever was loaded (the result of `LoadObj` and the
number of vertices and triangles are never tested), and every call of
`make_level_set3` it makes carries the loaded vertex and face lists as they are;
with at least one vertex, finite coordinates, `dx > 0` and each quotient
`(extent + 2 p dx)/dx`, `p = max(padding, 1)`, below `2^32` the call is made, the
face list possibly empty. -/
theorem main_ignores_empty_mesh (inp : Input) (hargc : inp.argc = 5)
    (hname : acceptsFilename inp.filename = true) (hfile : inp.infile = true) :
    (main inp).isFailure = false ∧
      (∀ call, main inp = Outcome.levelSet call →
        call.faceList = loadFaces inp.obj.shapes ∧
        call.vertList = loadVertices inp.obj.vertices) ∧
      (3 ≤ inp.obj.vertices.length → (∀ c ∈ inp.obj.vertices, |c| ≤ FLT_MAX) → 0 < inp.dx →
        (∀ i, ((boundBox (loadVertices inp.obj.vertices)).2 i
            - (boundBox (loadVertices inp.obj.vertices)).1 i
            + 2 * (max inp.padding 1 : Int) * inp.dx) / inp.dx < 4294967296) →
        ∃ call, main inp = Outcome.levelSet call ∧
          call.faceList = loadFaces inp.obj.shapes ∧
          call.vertList = loadVertices inp.obj.vertices) := by
  refine ⟨main_isFailure_of_valid inp hargc hname hfile, ?_, ?_⟩
  · intro call h
    obtain ⟨-, -, -, hf, hv, -⟩ := main_levelSet_inv inp call h
    exact ⟨hf, hv⟩
  · intro hne hfin hdx hr
    rw [← clampPadding_eq_max] at hr
    obtain ⟨call, h, hf, hv, -⟩ := main_of_mesh inp hargc hname hfile hne hfin hdx hr
    exact ⟨call, h, hf, hv⟩

theorem main_ignores_empty_mesh_witness :
    runNoTriangles.argc = 5 ∧ acceptsFilename runNoTriangles.filename = true ∧
      runNoTriangles.infile = true ∧ (main runNoTriangles).isFailure = false ∧
      ∃ call, main runNoTriangles = Outcome.levelSet call ∧
        call.faceList = loadFaces runNoTriangles.obj.shapes ∧
        call.vertList = loadVertices runNoTriangles.obj.vertices :=
  ⟨rfl, by decide, rfl, (main_ignores_empty_mesh runNoTriangles rfl (by decide) rfl).1,
    (main_ignores_empty_mesh runNoTriangles rfl (by decide) rfl).2.2
      (by simp [runNoTriangles, twoVertices]) finite_twoVertices
      (by norm_num [runNoTriangles]) range_runNoTriangles⟩

/-- C2, refuted as stated: on a mesh with two vertices and the face `0 1 -1`, `main`
calls `make_level_set3` with the triangle `(4294967295, 1, 0)`, whose first index is
not smaller than the number of vertices. -/
theorem badIndex_reaches_make_level_set3 :
    ∃ call, main runBadIndex = Outcome.levelSet call ∧ call.vertList.length = 2 ∧
      call.faceList = [(4294967295, 1, 0)] := by
  obtain ⟨call, h, hf, hv, -⟩ := main_of_mesh runBadIndex rfl (by decide) rfl
    (by simp [runBadIndex, twoVertices]) finite_twoVertices
    (by norm_num [runBadIndex]) range_runBadIndex
  refine ⟨call, h, ?_, ?_⟩
  · rw [hv]; rfl
  · rw [hf]; decide

/-- C2, amended: `main` never compares a vertex index with the number of vertices.
On every run that reaches `make_level_set3`, each face of a triangulated shape is
handed over with its three indices converted to `unsigned int` modulo `2^32` and
otherwise unchanged, whatever their values. -/
theorem main_passes_indices_unchecked (inp : Input) (call : Call)
    (hcall : main inp = Outcome.levelSet call) (m : mesh_t) (hm : m ∈ inp.obj.shapes)
    (htri : ∀ x ∈ m.num_face_vertices, x = 3)
    (_hwf : m.indices.length = 3 * m.num_face_vertices.length)
    (f : Nat) (hf : f < m.num_face_vertices.length) :
    (toUInt (m.indices.getD (3 * f + 2) 0), toUInt (m.indices.getD (3 * f + 1) 0),
      toUInt (m.indices.getD (3 * f) 0)) ∈ call.faceList := by
  obtain ⟨-, -, -, hfl, -⟩ := main_levelSet_inv inp call hcall
  rw [hfl]
  exact mem_loadFaces_of_triangulated hm htri hf

theorem main_passes_indices_unchecked_witness :
    ∃ call, main runBadIndex = Outcome.levelSet call ∧
      (toUInt ([0, 1, -1].getD (3 * 0 + 2) 0), toUInt ([0, 1, -1].getD (3 * 0 + 1) 0),
        toUInt ([0, 1, -1].getD (3 * 0) 0)) ∈ call.faceList := by
  obtain ⟨call, h, -⟩ := main_of_mesh runBadIndex rfl (by decide) rfl
    (by simp [runBadIndex, twoVertices]) finite_twoVertices
    (by norm_num [runBadIndex]) range_runBadIndex
  exact ⟨call, h, main_passes_indices_unchecked runBadIndex call h ⟨[0, 1, -1], [3]⟩
    (by simp [runBadIndex]) (by simp) (by simp) 0 (by simp)⟩

/-- C3, refuted as stated: with `dx = -1` on the mesh of the two vertices
`(0, 0, 0)`, `(1, 1, 1)`, `main` reports no failure, performs the division and calls
`make_level_set3` with `dx = -1` and dimensions `1 x 1 x 1`. -/
theorem negativeDx_reaches_make_level_set3 :
    ∃ call, main runNegativeDx = Outcome.levelSet call ∧ call.dx = -1 ∧
      call.ni = 1 ∧ call.nj = 1 ∧ call.nk = 1 := by
  have hg : ∀ i, gridSize
      (paddedMin (boundBox (loadVertices runNegativeDx.obj.vertices))
        (clampPadding runNegativeDx.padding) runNegativeDx.dx)
      (paddedMax (boundBox (loadVertices runNegativeDx.obj.vertices))
        (clampPadding runNegativeDx.padding) runNegativeDx.dx) runNegativeDx.dx i = some 1 := by
    intro i
    rw [gridSize_eq_some_iff, quotient_runNegativeDx i]
    exact ⟨by norm_num [runNegativeDx], by norm_num, by norm_num,
      by rw [Nat.floor_one]⟩
  exact ⟨_, main_eq_levelSet runNegativeDx rfl (by decide) rfl (hg 0) (hg 1) (hg 2),
    rfl, rfl, rfl, rfl⟩

/-- C3, amended: `main` never tests `dx`.  With five arguments, an accepted file
name and a file that opens, no failure is reported whatever `dx` was parsed; every
call of `make_level_set3` receives the parsed `dx` unchanged; and the call is made
whenever `dx ≠ 0` and each of the three quotients `(max_box - min_box)/dx` lies
strictly between `-1` and `2^32` (so that it converts to `unsigned int`), for a
negative `dx` as for a positive one. -/
theorem main_never_checks_dx (inp : Input) (hargc : inp.argc = 5)
    (hname : acceptsFilename inp.filename = true) (hfile : inp.infile = true) :
    (main inp).isFailure = false ∧
      (∀ call, main inp = Outcome.levelSet call → call.dx = inp.dx) ∧
      (inp.dx ≠ 0 →
        (∀ i : Fin 3,
          -1 < (paddedMax (boundBox (loadVertices inp.obj.vertices))
                (clampPadding inp.padding) inp.dx i
              - paddedMin (boundBox (loadVertices inp.obj.vertices))
                (clampPadding inp.padding) inp.dx i) / inp.dx ∧
          (paddedMax (boundBox (loadVertices inp.obj.vertices))
                (clampPadding inp.padding) inp.dx i
              - paddedMin (boundBox (loadVertices inp.obj.vertices))
                (clampPadding inp.padding) inp.dx i) / inp.dx < 4294967296) →
        ∃ call, main inp = Outcome.levelSet call ∧ call.dx = inp.dx) := by
  refine ⟨main_isFailure_of_valid inp hargc hname hfile, ?_, ?_⟩
  · intro call h
    exact (main_levelSet_inv inp call h).2.2.2.2.2.2.1
  · intro hdx hq
    have hg := fun i => (gridSize_eq_some_iff
      (paddedMin (boundBox (loadVertices inp.obj.vertices)) (clampPadding inp.padding) inp.dx)
      (paddedMax (boundBox (loadVertices inp.obj.vertices)) (clampPadding inp.padding) inp.dx)
      inp.dx i _).mpr ⟨hdx, (hq i).1, (hq i).2, rfl⟩
    exact ⟨_, main_eq_levelSet inp hargc hname hfile (hg 0) (hg 1) (hg 2), rfl⟩

theorem main_never_checks_dx_witness :
    runNegativeDx.argc = 5 ∧ acceptsFilename runNegativeDx.filename = true ∧
      runNegativeDx.infile = true ∧ runNegativeDx.dx < 0 ∧
      ∃ call, main runNegativeDx = Outcome.levelSet call ∧ call.dx = runNegativeDx.dx :=
  ⟨rfl, by decide, rfl, by norm_num [runNegativeDx],
    (main_never_checks_dx runNegativeDx rfl (by decide) rfl).2.2
      (by norm_num [runNegativeDx])
      (fun i => by rw [quotient_runNegativeDx i]; norm_num)⟩

/-- C5, refuted as stated: for the two vertices `(0, 0, 0)` and `(1, 1, 1)` with
`dx = 2` and padding 1 every dimension is 2, while the ceiling of
`(extent + 2 p dx)/dx = 5/2` is 3. -/
theorem halfCell_size_ne_ceil :
    ∃ call, main runHalfCell = Outcome.levelSet call ∧
      ∀ i, call.size i = 2 ∧
        ⌈((boundBox (loadVertices runHalfCell.obj.vertices)).2 i
            - (boundBox (loadVertices runHalfCell.obj.vertices)).1 i
            + 2 * runHalfCell.padding * runHalfCell.dx) / runHalfCell.dx⌉₊ = 3 := by
  obtain ⟨call, h, -, hg⟩ := main_grid runHalfCell rfl (by decide) rfl
    (by simp [runHalfCell, twoVertices]) finite_twoVertices (by norm_num [runHalfCell])
    range_runHalfCell
  refine ⟨call, h, fun i => ?_⟩
  obtain ⟨-, hs, -, -⟩ := hg i
  obtain ⟨hb1, hb2⟩ := boundBox_twoVertices i
  have hb1 : (boundBox (loadVertices runHalfCell.obj.vertices)).1 i = 0 := hb1
  have hb2 : (boundBox (loadVertices runHalfCell.obj.vertices)).2 i = 1 := hb2
  have hc : clampPadding runHalfCell.padding = 1 := by decide
  have hdx : runHalfCell.dx = 2 := rfl
  have hp : runHalfCell.padding = 1 := rfl
  rw [hb1, hb2, hc, hdx] at hs
  rw [hb1, hb2, hdx, hp]
  constructor
  · rw [hs]
    have : ⌊((1 : ℚ) - 0) / 2⌋₊ = 0 := Nat.floor_eq_zero.mpr (by norm_num)
    rw [this]
    rfl
  · rw [Nat.ceil_eq_iff (by norm_num)]
    norm_num

/-- C5, amended: for a mesh with at least one vertex, `dx > 0`, padding `p ≥ 1` and
each quotient `(extent of the bounding box on that axis + 2 p dx)/dx` below `2^32`,
`main` calls `make_level_set3` with each grid dimension equal to the floor (the
conversion to `unsigned int` truncates) of that quotient. -/
theorem size_eq_floor (inp : Input) (hargc : inp.argc = 5)
    (hname : acceptsFilename inp.filename = true) (hfile : inp.infile = true)
    (hne : 3 ≤ inp.obj.vertices.length) (hfin : ∀ c ∈ inp.obj.vertices, |c| ≤ FLT_MAX)
    (hdx : 0 < inp.dx) (hp : 1 ≤ inp.padding)
    (hr : ∀ i, ((boundBox (loadVertices inp.obj.vertices)).2 i
        - (boundBox (loadVertices inp.obj.vertices)).1 i
        + 2 * inp.padding * inp.dx) / inp.dx < 4294967296) :
    ∃ call, main inp = Outcome.levelSet call ∧
      ∀ i, call.size i =
        ⌊((boundBox (loadVertices inp.obj.vertices)).2 i
            - (boundBox (loadVertices inp.obj.vertices)).1 i
            + 2 * inp.padding * inp.dx) / inp.dx⌋₊ := by
  have hc : clampPadding inp.padding = inp.padding := by
    rw [clampPadding_eq_max]; exact max_eq_left hp
  obtain ⟨call, h, -, hg⟩ := main_grid inp hargc hname hfile hne hfin hdx
    (by rw [hc]; exact hr)
  refine ⟨call, h, fun i => ?_⟩
  obtain ⟨-, hs, -, -⟩ := hg i
  have hnn : 0 ≤ ((boundBox (loadVertices inp.obj.vertices)).2 i
      - (boundBox (loadVertices inp.obj.vertices)).1 i) / inp.dx :=
    div_nonneg (by linarith [boundBox_min_le_max hne hfin i]) hdx.le
  have hcast : ((2 * inp.padding).toNat : ℚ) = 2 * inp.padding := by
    have : ((2 * inp.padding).toNat : Int) = 2 * inp.padding :=
      Int.toNat_of_nonneg (by omega)
    exact_mod_cast this
  have hq : ((boundBox (loadVertices inp.obj.vertices)).2 i
        - (boundBox (loadVertices inp.obj.vertices)).1 i
        + 2 * inp.padding * inp.dx) / inp.dx
      = ((boundBox (loadVertices inp.obj.vertices)).2 i
        - (boundBox (loadVertices inp.obj.vertices)).1 i) / inp.dx
        + ((2 * inp.padding).toNat : ℚ) := by
    rw [hcast]
    field_simp
  rw [hs, hc, hq, Nat.floor_add_nat hnn]

theorem size_eq_floor_unitCube :
    0 < runUnitCube.dx ∧ 1 ≤ runUnitCube.padding ∧
      ∃ call, main runUnitCube = Outcome.levelSet call ∧ ∀ i, call.size i = 14 := by
  obtain ⟨call, h, hs⟩ := size_eq_floor runUnitCube rfl (by decide) rfl
    (by simp [runUnitCube, unitCube]) finite_unitCube (by norm_num [runUnitCube])
    (by decide) range_runUnitCube
  refine ⟨by norm_num [runUnitCube], by decide, call, h, fun i => ?_⟩
  obtain ⟨hb1, hb2⟩ := boundBox_unitCube i
  have hb1' : (boundBox (loadVertices runUnitCube.obj.vertices)).1 i = -1 / 2 := hb1
  have hb2' : (boundBox (loadVertices runUnitCube.obj.vertices)).2 i = 1 / 2 := hb2
  have hq : ((1 : ℚ) / 2 - -1 / 2 + 2 * ((2 : Int) : ℚ) * (1 / 10)) / (1 / 10)
      = ((14 : Nat) : ℚ) := by norm_num
  have hdx : runUnitCube.dx = 1 / 10 := rfl
  have hp : runUnitCube.padding = 2 := rfl
  rw [hs i, hb1', hb2', hdx, hp, hq, Nat.floor_natCast]

/-- C6, refuted as stated: on the mesh of the two vertices `(0, 0, 0)`, `(1, 1, 1)`
with `dx = 2^-33` and padding 1 (a vertex, `dx > 0`) each quotient of line 122 is
`2^33 + 2`, which has no conversion to a 32-bit `unsigned int`: `main` does not
hand `make_level_set3` three dimensions of at least `2 max(padding, 1)`. -/
theorem tinyDx_sizes_undefined :
    3 ≤ runTinyDx.obj.vertices.length ∧ 0 < runTinyDx.dx ∧
      main runTinyDx = Outcome.undefinedSizes ∧
      ¬ ∃ call, main runTinyDx = Outcome.levelSet call ∧
        ∀ i, 2 * max runTinyDx.padding 1 ≤ (call.size i : Int) ∧ 1 ≤ call.size i := by
  have h0 := gridSize_eq_none_of_large
    (paddedMin (boundBox (loadVertices runTinyDx.obj.vertices))
      (clampPadding runTinyDx.padding) runTinyDx.dx)
    (paddedMax (boundBox (loadVertices runTinyDx.obj.vertices))
      (clampPadding runTinyDx.padding) runTinyDx.dx) runTinyDx.dx 0
    (by rw [quotient_runTinyDx 0]; norm_num)
  have hmain : main runTinyDx = Outcome.undefinedSizes := by
    have hargc : runTinyDx.argc = 5 := rfl
    have hname : acceptsFilename runTinyDx.filename = true := by decide
    have hfile : runTinyDx.infile = true := rfl
    simp [main, hargc, hname, hfile, h0]
  refine ⟨by simp [runTinyDx, twoVertices], by norm_num [runTinyDx], hmain, ?_⟩
  rintro ⟨call, h, -⟩
  rw [hmain] at h
  cases h

/-- C6, amended: for a mesh with at least one vertex, `dx > 0`, any padding argument
and each quotient `(extent + 2 p dx)/dx`, `p = max(padding, 1)`, below `2^32`, `main`
calls `make_level_set3` with each of the three dimensions at least
`2 max(padding, 1)`, hence at least 1. -/
theorem size_ge_twice_padding (inp : Input) (hargc : inp.argc = 5)
    (hname : acceptsFilename inp.filename = true) (hfile : inp.infile = true)
    (hne : 3 ≤ inp.obj.vertices.length) (hfin : ∀ c ∈ inp.obj.vertices, |c| ≤ FLT_MAX)
    (hdx : 0 < inp.dx)
    (hr : ∀ i, ((boundBox (loadVertices inp.obj.vertices)).2 i
        - (boundBox (loadVertices inp.obj.vertices)).1 i
        + 2 * (max inp.padding 1 : Int) * inp.dx) / inp.dx < 4294967296) :
    ∃ call, main inp = Outcome.levelSet call ∧
      ∀ i, 2 * max inp.padding 1 ≤ (call.size i : Int) ∧ 1 ≤ call.size i := by
  obtain ⟨call, h, -, hg⟩ := main_grid inp hargc hname hfile hne hfin hdx
    (by rw [clampPadding_eq_max]; exact hr)
  refine ⟨call, h, fun i => ?_⟩
  obtain ⟨-, hs, -, -⟩ := hg i
  have h1 := one_le_clampPadding inp.padding
  rw [clampPadding_eq_max] at hs h1
  have h2 : ((2 * max inp.padding 1).toNat : Int) = 2 * max inp.padding 1 :=
    Int.toNat_of_nonneg (by omega)
  constructor
  · rw [hs]; push_cast; omega
  · omega

theorem size_ge_twice_padding_witness :
    3 ≤ runNoTriangles.obj.vertices.length ∧ 0 < runNoTriangles.dx ∧
      ∃ call, main runNoTriangles = Outcome.levelSet call ∧
        ∀ i, 2 * max runNoTriangles.padding 1 ≤ (call.size i : Int) ∧ 1 ≤ call.size i :=
  ⟨by simp [runNoTriangles, twoVertices], by norm_num [runNoTriangles],
    size_ge_twice_padding runNoTriangles rfl (by decide) rfl
      (by simp [runNoTriangles, twoVertices]) finite_twoVertices
      (by norm_num [runNoTriangles]) range_runNoTriangles⟩

/-- C7, refuted as stated: the face with indices `(0, 1, 2)` in file order is
appended as `(2, 1, 0)`, which is not a cyclic rotation of `(0, 1, 2)`. -/
theorem face_appended_reversed :
    loadFaces [⟨[0, 1, 2], [3]⟩] = [(2, 1, 0)] ∧ ¬ sameWinding (2, 1, 0) 0 1 2 := by
  refine ⟨by decide, ?_⟩
  simp [sameWinding]

/-- C7, amended: a face of three vertices whose indices are `(a, b, c)` in file
order is appended as `(c, b, a)`, the reverse order, at the position of the face;
this triple is a cyclic rotation of `(a, b, c)` only when two of the indices are
equal.  Every face is reversed alike, so a consistently wound mesh reaches the
core consistently wound, with the opposite orientation. -/
theorem faceList_reverses_faces (shapes : List mesh_t) (m : mesh_t) (hm : m ∈ shapes)
    (htri : ∀ x ∈ m.num_face_vertices, x = 3) (f : Nat)
    (hf : f < m.num_face_vertices.length) (a b c : Nat)
    (ha : a < 4294967296) (hb : b < 4294967296) (hc : c < 4294967296)
    (hia : m.indices[3 * f]? = some (a : Int))
    (hib : m.indices[3 * f + 1]? = some (b : Int))
    (hic : m.indices[3 * f + 2]? = some (c : Int)) :
    (shapeFaces m.indices m.num_face_vertices 0)[f]? = some (c, b, a) ∧
      (c, b, a) ∈ loadFaces shapes ∧
      (sameWinding (c, b, a) a b c ↔ a = b ∨ b = c ∨ a = c) := by
  have hu : ∀ n : Nat, n < 4294967296 → toUInt (n : Int) = n := by
    intro n hn
    unfold toUInt
    omega
  have htriple : faceTriangle m.indices (3 * f) 2 = (c, b, a) := by
    simp only [faceTriangle, List.getD_eq_getElem?_getD, Nat.add_sub_cancel, hic, hia,
      show 3 * f + 2 - 1 = 3 * f + 1 by omega, hib, Option.getD_some, hu a ha, hu b hb,
      hu c hc]
  refine ⟨?_, ?_, ?_⟩
  · rw [shapeFaces_triangulated _ _ _ htri]
    simp only [List.getElem?_map, List.getElem?_range hf, Option.map_some', Nat.zero_add,
      htriple]
  · rw [← htriple]
    exact mem_loadFaces_of_triangulated hm htri hf
  · simp only [sameWinding, Prod.mk.injEq]
    constructor
    · rintro (⟨h1, -, -⟩ | ⟨h1, -, -⟩ | ⟨-, h2, -⟩)
      · exact Or.inr (Or.inr h1.symm)
      · exact Or.inr (Or.inl h1.symm)
      · exact Or.inl h2.symm
    · rintro (h | h | h) <;> subst h <;> simp

theorem faceList_reverses_faces_witness :
    (shapeFaces unitCubeMesh.indices unitCubeMesh.num_face_vertices 0)[1]?
        = some (2, 3, 0) ∧
      (2, 3, 0) ∈ loadFaces unitCube.shapes ∧
      (sameWinding (2, 3, 0) 0 3 2 ↔ 0 = 3 ∨ 3 = 2 ∨ 0 = 2) :=
  faceList_reverses_faces unitCube.shapes unitCubeMesh (by simp [unitCube])
    (by simp [unitCubeMesh]) 1 (by simp [unitCubeMesh]) 0 3 2 (by decide) (by decide)
    (by decide) (by simp [unitCubeMesh]) (by simp [unitCubeMesh]) (by simp [unitCubeMesh])

/-- C8: with five arguments, `main` goes past the `Expected OBJ file` exit if and
only if the file name has at least 5 characters and ends in the four characters
`.obj`; any other name is rejected whether or not a file of that name can be
opened and whatever it holds. -/
theorem main_accepts_iff_obj_suffix (inp : Input) (hargc : inp.argc = 5) :
    (main inp ≠ Outcome.badFilename ↔
        5 ≤ inp.filename.length ∧ ∃ name, inp.filename = name ++ ['.', 'o', 'b', 'j']) ∧
      (main inp = Outcome.badFilename →
        ∀ (infile : Bool) (obj : LoadResult),
          main { inp with infile := infile, obj := obj } = Outcome.badFilename) := by
  rw [← acceptsFilename_iff]
  cases hname : acceptsFilename inp.filename with
  | false =>
    have hbad : ∀ (infile : Bool) (obj : LoadResult),
        main { inp with infile := infile, obj := obj } = Outcome.badFilename := by
      intro infile obj
      simp [main, hargc, hname]
    have h0 := hbad inp.infile inp.obj
    exact ⟨⟨fun h => absurd h0 h, fun h => by cases h⟩, fun _ => hbad⟩
  | true =>
    have hne : main inp ≠ Outcome.badFilename := by
      cases hfile : inp.infile with
      | false => simp [main, hargc, hname, hfile]
      | true =>
        rcases main_cases inp hargc hname hfile with h | ⟨ni, nj, nk, h, -⟩ <;>
          rw [h] <;> simp
    exact ⟨⟨fun _ => rfl, fun _ => hne⟩, fun h => absurd h hne⟩

theorem main_accepts_iff_obj_suffix_witness :
    runNoTriangles.argc = 5 ∧
      (main runNoTriangles ≠ Outcome.badFilename ↔
        5 ≤ runNoTriangles.filename.length ∧
          ∃ name, runNoTriangles.filename = name ++ ['.', 'o', 'b', 'j']) :=
  ⟨rfl, (main_accepts_iff_obj_suffix runNoTriangles rfl).1⟩

/-- C9: for a non-empty `remove` and a non-empty `insert` that does not contain the
first character of `remove`, `replace_all(str, remove, insert)` terminates, within
`str.size() + 1` tests of the loop condition, and returns the reference
replacement: `str` with each occurrence of `remove`, found from left to right
without overlap, replaced by `insert`. -/
theorem replace_all_eq_replaceRef (str remove insert : CppString) (hrem : remove ≠ [])
    (hins : insert ≠ []) (hfirst : ∀ c, remove.head? = some c → c ∉ insert) :
    ∀ fuel, str.length + 1 ≤ fuel →
      replace_all fuel str remove insert = some (replaceRef remove insert str 0) := by
  intro fuel hfuel
  have := replace_all_loop_eq_ref hrem hins hfirst str.length str [] 0 fuel le_rfl
    (by simp) (by simp) hfuel
  simpa [replace_all] using this

theorem replace_all_eq_replaceRef_witness :
    replace_all 20 "<p>$\x7bSDF\x7d</p>".toList "$\x7bSDF\x7d".toList "let a;".toList
      = some (replaceRef "$\x7bSDF\x7d".toList "let a;".toList
          "<p>$\x7bSDF\x7d</p>".toList 0) :=
  replace_all_eq_replaceRef "<p>$\x7bSDF\x7d</p>".toList "$\x7bSDF\x7d".toList
    "let a;".toList (by decide) (by decide) (by decide) 20 (by decide)

/-- C10: for a non-empty `remove` and an `insert` that does not contain `remove` as
a substring, `replace_all(str, remove, insert)` terminates: the loop condition is
tested at most `str.size() + 1` times, so at most `str.size()` replacements are
made, and some string is returned. -/
theorem replace_all_terminates (str remove insert : CppString) (hrem : remove ≠ [])
    (hins : ¬ remove <:+: insert) :
    ∃ out, ∀ fuel, str.length + 1 ≤ fuel → replace_all fuel str remove insert = some out := by
  have hlen : 0 < remove.length := List.length_pos.mpr hrem
  exact replace_all_loop_terminates hins str.length str 0 (by
    intro q _ _
    omega)

theorem replace_all_terminates_witness :
    ∃ out, ∀ fuel, "abab".toList.length + 1 ≤ fuel →
      replace_all fuel "abab".toList "ab".toList "ba".toList = some out :=
  replace_all_terminates "abab".toList "ab".toList "ba".toList (by decide) (by
    intro h
    obtain ⟨s, t, h⟩ := h
    have hl := congrArg List.length h
    simp at hl
    have hs : s = [] := List.length_eq_zero.mp (by omega)
    subst hs
    simp at h)

end SDFGen
